import Mathlib

/-!
Shallow embedding of `finalproject.py`, a task-tracking CLI.

Modelling conventions:
- `datetime` values are natural numbers (microsecond timestamps).  Only due
  dates are ever compared by the program (in the sort key), so the exact
  calendar encoding matters only for parsed due dates; we encode the parsed
  date `(y, m, d)` as `((y*16 + m)*32 + d) * microsPerDay`, which is strictly
  monotone with respect to calendar order on valid dates (`m ≤ 12 < 16`,
  `d ≤ 31 < 32`, time-of-day 0).  `datetime.max` is the encoding of
  9999-12-31 plus the maximal time of day.
- Strings are `List Char`; `str.lower()` is `List.map Char.toLower` and the
  Python `in` substring test is `substrB`.
- The current clock (`datetime.now()`) is passed explicitly as a `now`
  argument wherever the source calls it.
- The pickle file is modelled by its content: `Tasks.file : Option (List Tok)`
  is `none` when the file does not exist and `some blob` when it holds the
  serialized blob.  `pickle.dump`/`pickle.load` are modelled by the explicit
  codec `encodeTasks`/`decodeTasks`; a blob that `decodeTasks` rejects is a
  corrupt file (Python: `pickle.load` raises).
- Exceptions are modelled by `Except PyError`; `PyError.parseError` is the
  `ValueError` raised by `datetime.strptime`, `PyError.corruptStore` is the
  error raised by `pickle.load` on undecodable data.
-/

namespace FinalProject

/-- Errors that can propagate out of the store operations. -/
inductive PyError where
  | parseError
  | corruptStore
deriving DecidableEq

/-- Microseconds in one day; the resolution of Python `datetime`. -/
def microsPerDay : Nat := 86400000000

/-- Timestamp (midnight) of the calendar date `y-m-d` in our encoding. -/
def dtOfYMD (y m d : Nat) : Nat := ((y * 16 + m) * 32 + d) * microsPerDay

/-- Model of `datetime.max`: 9999-12-31 23:59:59.999999. -/
def dtMax : Nat := dtOfYMD 9999 12 31 + (microsPerDay - 1)

/-- Gregorian leap-year rule, as used by `datetime`. -/
def isLeapYear (y : Nat) : Bool :=
  y % 4 == 0 && (y % 100 != 0 || y % 400 == 0)

/-- Number of days in month `m` of year `y` (used by `datetime` validation). -/
def daysInMonth (y m : Nat) : Nat :=
  if m == 2 then (if isLeapYear y then 29 else 28)
  else if m == 4 || m == 6 || m == 9 || m == 11 then 30
  else 31

/-- Split a character list on a separator character (Python `str.split` as
used by `strptime` to match the literal `/` of the format). -/
def splitOnChar (sep : Char) : List Char → List (List Char)
  | [] => [[]]
  | c :: cs =>
    let r := splitOnChar sep cs
    if c == sep then [] :: r
    else
      match r with
      | [] => [[c]]
      | g :: gs => (c :: g) :: gs

/-- Decimal digit test, `0x30 ≤ c ≤ 0x39`. -/
def isDigitB (c : Char) : Bool :=
  48 ≤ c.toNat && c.toNat ≤ 57

/-- Numeric value of a digit string. -/
def natOfDigits (s : List Char) : Nat :=
  s.foldl (fun a c => a * 10 + (c.toNat - 48)) 0

/-- Model of `datetime.strptime(s, "%m/%d/%Y")`: the month and day fields are
one or two digits, the year field exactly four digits (CPython's `%Y`
pattern), the month is 1..12, the year at least 1 (`datetime.MINYEAR`) and the
day is validated against the month length.  Returns `none` where Python raises
`ValueError`. -/
def strptimeMDY (s : List Char) : Option Nat :=
  match splitOnChar '/' s with
  | [ms, ds, ys] =>
    if (ms.length == 1 || ms.length == 2) && ms.all isDigitB
        && (ds.length == 1 || ds.length == 2) && ds.all isDigitB
        && ys.length == 4 && ys.all isDigitB then
      if 1 ≤ natOfDigits ms && natOfDigits ms ≤ 12 && 1 ≤ natOfDigits ys
          && 1 ≤ natOfDigits ds
          && natOfDigits ds ≤ daysInMonth (natOfDigits ys) (natOfDigits ms) then
        some (dtOfYMD (natOfDigits ys) (natOfDigits ms) (natOfDigits ds))
      else none
    else none
  | _ => none

/-- Task record: `Task.__init__` fields in source order. -/
structure Task where
  task_id : Nat
  name : List Char
  priority : Int
  created : Nat
  due_date : Option Nat
  completed : Option Nat
deriving DecidableEq

/-- Model of `Task.__init__(task_id, name, priority, due_date)` at clock
`now`.  Python parses the due date with
`datetime.strptime(due_date, '%m/%d/%Y') if due_date else None`; the
condition is falsy both for `None` and for the empty string, so an empty
due-date string yields `due_date = None` rather than a parse error. -/
def Task.init (task_id : Nat) (name : List Char) (priority : Int)
    (due_date : Option (List Char)) (now : Nat) : Except PyError Task :=
  match due_date with
  | none => .ok ⟨task_id, name, priority, now, none, none⟩
  | some s =>
    if s.isEmpty then .ok ⟨task_id, name, priority, now, none, none⟩
    else
      match strptimeMDY s with
      | some dt => .ok ⟨task_id, name, priority, now, some dt, none⟩
      | none => .error .parseError

/-- Model of `Task.mark_complete`: sets `completed = datetime.now()`. -/
def Task.mark_complete (t : Task) (now : Nat) : Task :=
  { t with completed := some now }

/-- Model of `Task.is_completed`. -/
def Task.is_completed (t : Task) : Bool :=
  t.completed.isSome

/-- Tokens of the serialized blob (model of the pickle byte stream). -/
inductive Tok where
  | tnat : Nat → Tok
  | tint : Int → Tok
  | tchr : Char → Tok
  | tnone : Tok
  | tsome : Tok
deriving DecidableEq

/-- Serialize a string as a length-prefixed run of character tokens. -/
def encodeStr (s : List Char) : List Tok :=
  Tok.tnat s.length :: s.map Tok.tchr

/-- Serialize an optional timestamp. -/
def encodeOptNat : Option Nat → List Tok
  | none => [Tok.tnone]
  | some n => [Tok.tsome, Tok.tnat n]

/-- Serialize one task, field by field. -/
def encodeTask (t : Task) : List Tok :=
  Tok.tnat t.task_id :: encodeStr t.name
    ++ Tok.tint t.priority :: Tok.tnat t.created
    :: (encodeOptNat t.due_date ++ encodeOptNat t.completed)

/-- Serialize a task sequence body. -/
def encodeTaskList : List Task → List Tok
  | [] => []
  | t :: ts => encodeTask t ++ encodeTaskList ts

/-- Model of `pickle.dump` for the task list: length-prefixed body. -/
def encodeTasks (l : List Task) : List Tok :=
  Tok.tnat l.length :: encodeTaskList l

/-- Decode a natural-number token. -/
def decNat : List Tok → Option (Nat × List Tok)
  | Tok.tnat n :: r => some (n, r)
  | _ => none

/-- Decode an integer token. -/
def decInt : List Tok → Option (Int × List Tok)
  | Tok.tint i :: r => some (i, r)
  | _ => none

/-- Decode exactly `n` character tokens. -/
def decChars : Nat → List Tok → Option (List Char × List Tok)
  | 0, r => some ([], r)
  | n + 1, Tok.tchr c :: r =>
    match decChars n r with
    | some (s, r') => some (c :: s, r')
    | none => none
  | _ + 1, _ => none

/-- Decode a length-prefixed string. -/
def decStr (r : List Tok) : Option (List Char × List Tok) :=
  match decNat r with
  | some (n, r') => decChars n r'
  | none => none

/-- Decode an optional timestamp. -/
def decOptNat : List Tok → Option (Option Nat × List Tok)
  | Tok.tnone :: r => some (none, r)
  | Tok.tsome :: Tok.tnat n :: r => some (some n, r)
  | _ => none

/-- Decode one task. -/
def decTask (r0 : List Tok) : Option (Task × List Tok) :=
  match decNat r0 with
  | none => none
  | some (tid, r1) =>
    match decStr r1 with
    | none => none
    | some (nm, r2) =>
      match decInt r2 with
      | none => none
      | some (p, r3) =>
        match decNat r3 with
        | none => none
        | some (cr, r4) =>
          match decOptNat r4 with
          | none => none
          | some (du, r5) =>
            match decOptNat r5 with
            | none => none
            | some (co, r6) => some (⟨tid, nm, p, cr, du, co⟩, r6)

/-- Decode exactly `n` tasks. -/
def decTaskList : Nat → List Tok → Option (List Task × List Tok)
  | 0, r => some ([], r)
  | n + 1, r =>
    match decTask r with
    | none => none
    | some (t, r') =>
      match decTaskList n r' with
      | none => none
      | some (ts, r'') => some (t :: ts, r'')

/-- Model of `pickle.load` for the task list: the whole blob must decode. -/
def decodeTasks (blob : List Tok) : Option (List Task) :=
  match decNat blob with
  | some (n, r) =>
    match decTaskList n r with
    | some (ts, []) => some ts
    | _ => none
  | none => none

/-- Task store: in-memory task sequence plus the content of the backing file
(`none` when the file does not exist). -/
structure Tasks where
  tasks : List Task
  file : Option (List Tok)
deriving DecidableEq

/-- Model of `Tasks._load_tasks`: decode the file if it exists, else the
empty list; a file that does not decode raises (propagates). -/
def Tasks._load_tasks (file : Option (List Tok)) : Except PyError (List Task) :=
  match file with
  | none => .ok []
  | some blob =>
    match decodeTasks blob with
    | some ts => .ok ts
    | none => .error .corruptStore

/-- Model of `Tasks.__init__`: load the backing file once at construction. -/
def Tasks.init (file : Option (List Tok)) : Except PyError Tasks :=
  match Tasks._load_tasks file with
  | .ok ts => .ok ⟨ts, file⟩
  | .error e => .error e

/-- Model of `Tasks.save_tasks`: overwrite the file with the serialized
current sequence. -/
def Tasks.save_tasks (s : Tasks) : Tasks :=
  { s with file := some (encodeTasks s.tasks) }

/-- Model of `Tasks.add_task` at clock `now`: `task_id = len(tasks) + 1`,
construct (which may raise), append, save, return the id. -/
def Tasks.add_task (s : Tasks) (name : List Char) (priority : Int)
    (due_date : Option (List Char)) (now : Nat) : Except PyError (Nat × Tasks) :=
  match Task.init (s.tasks.length + 1) name priority due_date now with
  | .error e => .error e
  | .ok t =>
    .ok (s.tasks.length + 1, Tasks.save_tasks { s with tasks := s.tasks ++ [t] })

/-- Model of `Tasks.delete_task`: keep the tasks whose id differs, save. -/
def Tasks.delete_task (s : Tasks) (task_id : Nat) : Tasks :=
  Tasks.save_tasks { s with tasks := s.tasks.filter (fun t => t.task_id != task_id) }

/-- Mark the first task with the given id, if any (the Python `for` loop in
`Tasks.mark_complete` stops at the first match). -/
def markFirst (task_id now : Nat) : List Task → Option (List Task)
  | [] => none
  | t :: ts =>
    if t.task_id == task_id then some (Task.mark_complete t now :: ts)
    else
      match markFirst task_id now ts with
      | some ts' => some (t :: ts')
      | none => none

/-- Model of `Tasks.mark_complete` at clock `now`: mark the first task with
the id, save and return `true`; return `false` without saving otherwise. -/
def Tasks.mark_complete (s : Tasks) (task_id now : Nat) : Bool × Tasks :=
  match markFirst task_id now s.tasks with
  | some ts => (true, Tasks.save_tasks { s with tasks := ts })
  | none => (false, s)

/-- Lowercasing, `str.lower()`. -/
def lowerStr (s : List Char) : List Char :=
  s.map Char.toLower

/-- Does `needle` occur as a prefix of `hay`?  (Helper for `substrB`.) -/
def isPrefixB : List Char → List Char → Bool
  | [], _ => true
  | _ :: _, [] => false
  | a :: as, b :: bs => a == b && isPrefixB as bs

/-- Python substring test `needle in hay`. -/
def substrB (needle : List Char) : List Char → Bool
  | [] => needle.isEmpty
  | c :: t => isPrefixB needle (c :: t) || substrB needle t

/-- Python `any(q.lower() in task.name.lower() for q in query)`. -/
def Task.matchesQuery (t : Task) (query : List (List Char)) : Bool :=
  query.any (fun q => substrB (lowerStr q) (lowerStr t.name))

/-- Sort key, first component: `t.due_date or datetime.max` (a `datetime` is
always truthy, so `or` here is exactly a `None` check). -/
def dueKey (t : Task) : Nat :=
  t.due_date.getD dtMax

/-- Boolean `≤` of the Python sort key `(due_date or datetime.max,
-priority)` under lexicographic tuple comparison. -/
def keyLe (t u : Task) : Bool :=
  decide (dueKey t < dueKey u)
    || (dueKey t == dueKey u && decide (u.priority ≤ t.priority))

/-- The filtering stage of `Tasks.list_tasks`: drop completed tasks, and if
the query is truthy (Python: a non-`None`, nonempty list) keep only tasks
matching at least one term. -/
def Tasks.filtered (s : Tasks) (query : Option (List (List Char))) : List Task :=
  match query with
  | some (q :: qs) =>
    (s.tasks.filter (fun t => !(Task.is_completed t))).filter
      (fun t => Task.matchesQuery t (q :: qs))
  | _ => s.tasks.filter (fun t => !(Task.is_completed t))

/-- Model of `Tasks.list_tasks`: filter, then Python's stable sort by the
key `(due_date or datetime.max, -priority)`.  Read-only. -/
def Tasks.list_tasks (s : Tasks) (query : Option (List (List Char))) : List Task :=
  (Tasks.filtered s query).mergeSort keyLe

/-- Model of `Tasks.generate_report`: sort ALL tasks in place (the store's
in-memory order is mutated) and return them.  Does not save. -/
def Tasks.generate_report (s : Tasks) : List Task × Tasks :=
  (s.tasks.mergeSort keyLe, { s with tasks := s.tasks.mergeSort keyLe })

/-- One CLI invocation against the store (the operations reachable from
`main`); `now` arguments model the clock at that invocation. -/
inductive Op where
  | add : List Char → Int → Option (List Char) → Nat → Op
  | delete : Nat → Op
  | done : Nat → Nat → Op
  | list : Option (List (List Char)) → Op
  | report : Op

/-- Effect of one invocation on the store.  A failed `add` (parse error)
aborts the invocation: the store and the file are left unchanged. -/
def applyOp (op : Op) (s : Tasks) : Tasks :=
  match op with
  | .add name priority due now =>
    match Tasks.add_task s name priority due now with
    | .ok (_, s') => s'
    | .error _ => s
  | .delete id => Tasks.delete_task s id
  | .done id now => (Tasks.mark_complete s id now).2
  | .list _ => s
  | .report => (Tasks.generate_report s).2

/-- Effect of a sequence of invocations, first to last. -/
def applyOps (ops : List Op) (s : Tasks) : Tasks :=
  ops.foldl (fun s op => applyOp op s) s

/-- The empty store with no backing file. -/
def emptyStore : Tasks := ⟨[], none⟩

/-! Serialization round-trip lemmas. -/

theorem decChars_encode (s : List Char) (r : List Tok) :
    decChars s.length (s.map Tok.tchr ++ r) = some (s, r) := by
  induction s with
  | nil => rfl
  | cons c cs ih => simp [decChars, ih]

theorem decStr_encode (s : List Char) (r : List Tok) :
    decStr (encodeStr s ++ r) = some (s, r) := by
  simp [encodeStr, decStr, decNat, decChars_encode]

theorem decOptNat_encode (o : Option Nat) (r : List Tok) :
    decOptNat (encodeOptNat o ++ r) = some (o, r) := by
  cases o <;> rfl

theorem decTask_encode (t : Task) (r : List Tok) :
    decTask (encodeTask t ++ r) = some (t, r) := by
  obtain ⟨tid, nm, p, cr, du, co⟩ := t
  simp [encodeTask, decTask, decNat, decInt, decStr_encode, decOptNat_encode]

theorem decTaskList_encode (l : List Task) (r : List Tok) :
    decTaskList l.length (encodeTaskList l ++ r) = some (l, r) := by
  induction l with
  | nil => rfl
  | cons t ts ih => simp [encodeTaskList, decTaskList, decTask_encode, ih]

theorem decodeTasks_encodeTasks (l : List Task) :
    decodeTasks (encodeTasks l) = some l := by
  have h := decTaskList_encode l []
  simp only [List.append_nil] at h
  simp [encodeTasks, decodeTasks, decNat, h]

/-! Claim theorems: persistence (C8, C9) and query semantics (C2, C10). -/

/-- C9: for every store state, saving and then loading reproduces an equal
sequence of tasks — same id, name, priority, created, due and completed for
every element, in the same order. -/
theorem save_then_load_roundtrip (s : Tasks) :
    Tasks._load_tasks (Tasks.save_tasks s).file = .ok s.tasks := by
  simp [Tasks.save_tasks, Tasks._load_tasks, decodeTasks_encodeTasks]

/-- C8: store construction loads the backing file: an absent file yields the
empty store (not an error), while a file that exists but cannot be
deserialized makes construction fail with an error that propagates to the
caller instead of being replaced by an empty store. -/
theorem init_load_behaviour (blob : List Tok) :
    Tasks.init none = .ok ⟨[], none⟩ ∧
    (decodeTasks blob = none → Tasks.init (some blob) = .error .corruptStore) ∧
    (∀ ts, decodeTasks blob = some ts → Tasks.init (some blob) = .ok ⟨ts, some blob⟩) := by
  refine ⟨rfl, fun h => ?_, fun ts h => ?_⟩ <;>
    simp [Tasks.init, Tasks._load_tasks, h]

/-- Witness for C8 at a concrete corrupt blob. -/
theorem init_load_behaviour_witness :
    decodeTasks [Tok.tnone] = none ∧
      Tasks.init (some [Tok.tnone]) = .error .corruptStore :=
  ⟨rfl, (init_load_behaviour [Tok.tnone]).2.1 rfl⟩

/-- C2: `list_tasks` returns exactly the stored tasks that are not completed
and that, when a (nonempty) list of query terms is given, contain at least
one term of the query as a case-insensitive substring of their name; in
particular no returned task is completed. -/
theorem list_tasks_membership (s : Tasks) (q : Option (List (List Char))) (t : Task) :
    t ∈ Tasks.list_tasks s q ↔
      t ∈ s.tasks ∧ Task.is_completed t = false ∧
        ∀ terms, q = some terms → terms ≠ [] → Task.matchesQuery t terms = true := by
  rw [Tasks.list_tasks, List.mem_mergeSort]
  cases q with
  | none => simp [Tasks.filtered, List.mem_filter, Bool.not_eq_true', and_assoc]
  | some terms =>
    cases terms with
    | nil => simp [Tasks.filtered, List.mem_filter, Bool.not_eq_true', and_assoc]
    | cons a as =>
      simp [Tasks.filtered, List.mem_filter, Bool.not_eq_true', and_assoc]
      exact fun _ => and_comm

/-- C10: calling `list_tasks` with an empty list of query terms behaves
exactly like calling it with no query at all — the empty list is falsy in
Python, so no name filter is applied and every open task is returned. -/
theorem list_tasks_empty_query (s : Tasks) :
    Tasks.list_tasks s (some []) = Tasks.list_tasks s none := rfl

/-! Lemmas about `markFirst`, the loop of `Tasks.mark_complete`. -/

theorem markFirst_eq_none (id now : Nat) (l : List Task) :
    markFirst id now l = none ↔ ∀ t ∈ l, t.task_id ≠ id := by
  induction l with
  | nil => simp [markFirst]
  | cons t ts ih =>
    by_cases h : t.task_id = id
    · simp [markFirst, h]
    · rw [List.forall_mem_cons, ← ih]
      simp only [markFirst, beq_iff_eq, if_neg h]
      cases hm : markFirst id now ts <;> simp [h]

theorem markFirst_spec (id now : Nat) (l l' : List Task)
    (h : markFirst id now l = some l') :
    ∃ l1 t l2, l = l1 ++ t :: l2 ∧ (∀ u ∈ l1, u.task_id ≠ id) ∧ t.task_id = id ∧
      l' = l1 ++ Task.mark_complete t now :: l2 := by
  induction l generalizing l' with
  | nil => simp [markFirst] at h
  | cons t ts ih =>
    by_cases ht : t.task_id = id
    · rw [markFirst, if_pos (by simp [ht])] at h
      simp only [Option.some.injEq] at h
      exact ⟨[], t, ts, rfl, by simp, ht, by simp [← h]⟩
    · rw [markFirst, if_neg (by simp [ht])] at h
      cases hm : markFirst id now ts with
      | none => rw [hm] at h; simp at h
      | some ts' =>
        rw [hm] at h
        simp only [Option.some.injEq] at h
        obtain ⟨l1, u, l2, e1, e2, e3, e4⟩ := ih ts' hm
        refine ⟨t :: l1, u, l2, by simp [e1], ?_, e3, by simp [← h, e4]⟩
        rw [List.forall_mem_cons]
        exact ⟨ht, e2⟩

/-- C3: `mark_complete(id)` at clock `now`: when some stored task has the id,
it returns `true`, sets the completed timestamp of the first matching task and
persists the new sequence; when no task has the id it returns `false` and the
store — in memory and on disk — is unchanged. -/
theorem mark_complete_spec (s : Tasks) (id now : Nat) :
    ((∃ t ∈ s.tasks, t.task_id = id) →
      (Tasks.mark_complete s id now).1 = true ∧
      ∃ l1 t l2, s.tasks = l1 ++ t :: l2 ∧ (∀ u ∈ l1, u.task_id ≠ id) ∧
        t.task_id = id ∧
        (Tasks.mark_complete s id now).2.tasks
          = l1 ++ Task.mark_complete t now :: l2 ∧
        (Tasks.mark_complete s id now).2.file
          = some (encodeTasks (l1 ++ Task.mark_complete t now :: l2))) ∧
    ((∀ t ∈ s.tasks, t.task_id ≠ id) → Tasks.mark_complete s id now = (false, s)) := by
  constructor
  · intro hex
    cases hm : markFirst id now s.tasks with
    | none =>
      obtain ⟨t, htm, hti⟩ := hex
      exact absurd hti ((markFirst_eq_none id now s.tasks).mp hm t htm)
    | some ts =>
      obtain ⟨l1, t, l2, e1, e2, e3, e4⟩ := markFirst_spec id now s.tasks ts hm
      refine ⟨?_, l1, t, l2, e1, e2, e3, ?_, ?_⟩ <;>
        simp [Tasks.mark_complete, hm, Tasks.save_tasks, e4]
  · intro hall
    have hm : markFirst id now s.tasks = none := (markFirst_eq_none id now s.tasks).mpr hall
    simp [Tasks.mark_complete, hm]

/-- Witness for C3: marking the only task (id 1) succeeds; a missing id (2)
returns `false` and leaves the store untouched. -/
theorem mark_complete_spec_witness :
    (Tasks.mark_complete ⟨[⟨1, ['A'], 1, 0, none, none⟩], none⟩ 1 7).1 = true ∧
    Tasks.mark_complete ⟨[⟨1, ['A'], 1, 0, none, none⟩], none⟩ 2 7
      = (false, ⟨[⟨1, ['A'], 1, 0, none, none⟩], none⟩) :=
  ⟨((mark_complete_spec ⟨[⟨1, ['A'], 1, 0, none, none⟩], none⟩ 1 7).1
      ⟨⟨1, ['A'], 1, 0, none, none⟩, by decide, rfl⟩).1,
   (mark_complete_spec ⟨[⟨1, ['A'], 1, 0, none, none⟩], none⟩ 2 7).2 (by decide)⟩

/-! Deletion (C4) and id assignment (C5). -/

theorem length_filter_ne_of_nodup (l : List Task) (id : Nat)
    (hnd : (l.map Task.task_id).Nodup) (hex : ∃ t ∈ l, t.task_id = id) :
    (l.filter (fun t => t.task_id != id)).length + 1 = l.length := by
  induction l with
  | nil => simp at hex
  | cons t ts ih =>
    simp only [List.map_cons, List.nodup_cons] at hnd
    obtain ⟨hnmem, hnd'⟩ := hnd
    by_cases ht : t.task_id = id
    · have hall : ∀ u ∈ ts, u.task_id ≠ id := by
        intro u hu he
        exact hnmem (List.mem_map.mpr ⟨u, hu, he.trans ht.symm⟩)
      rw [List.filter_cons_of_neg (by simp [ht]),
        List.filter_eq_self.mpr (fun u hu => by simp [hall u hu])]
      simp
    · have hex' : ∃ u ∈ ts, u.task_id = id := by
        obtain ⟨u, hu, he⟩ := hex
        rcases List.mem_cons.mp hu with rfl | hu'
        · exact absurd he ht
        · exact ⟨u, hu', he⟩
      rw [List.filter_cons_of_pos (by simp [ht])]
      have := ih hnd' hex'
      simp only [List.length_cons]
      omega

/-- C4 (amended): `delete_task(id)` removes exactly the tasks whose id
matches — every other task survives unchanged — it is a silent no-op when no
task has the id, it persists in every case, and when the store's ids are
unique (which reachable stores need not satisfy) exactly one task is removed
when the id exists. -/
theorem delete_task_spec (s : Tasks) (id : Nat) :
    ((Tasks.delete_task s id).file
        = some (encodeTasks (Tasks.delete_task s id).tasks)) ∧
    ((∀ t ∈ s.tasks, t.task_id ≠ id) → (Tasks.delete_task s id).tasks = s.tasks) ∧
    (∀ t ∈ (Tasks.delete_task s id).tasks, t ∈ s.tasks ∧ t.task_id ≠ id) ∧
    (∀ t ∈ s.tasks, t.task_id ≠ id → t ∈ (Tasks.delete_task s id).tasks) ∧
    ((s.tasks.map Task.task_id).Nodup → (∃ t ∈ s.tasks, t.task_id = id) →
      (Tasks.delete_task s id).tasks.length + 1 = s.tasks.length) := by
  refine ⟨rfl, ?_, ?_, ?_, ?_⟩
  · intro hall
    exact List.filter_eq_self.mpr (fun u hu => by simp [hall u hu])
  · intro t htm
    have := List.mem_filter.mp htm
    refine ⟨this.1, by simpa using this.2⟩
  · intro t htm hne
    exact List.mem_filter.mpr ⟨htm, by simp [hne]⟩
  · exact length_filter_ne_of_nodup s.tasks id

/-- Witness for C4 (amended) at a store with unique ids: deleting id 2 from a
two-task store removes exactly one task. -/
theorem delete_task_spec_witness :
    (Tasks.delete_task
        ⟨[⟨1, ['A'], 1, 0, none, none⟩, ⟨2, ['B'], 1, 0, none, none⟩], none⟩
        2).tasks.length + 1 = 2 :=
  (delete_task_spec
      ⟨[⟨1, ['A'], 1, 0, none, none⟩, ⟨2, ['B'], 1, 0, none, none⟩], none⟩
      2).2.2.2.2 (by decide) ⟨⟨2, ['B'], 1, 0, none, none⟩, by decide, rfl⟩

/-- Operation sequence reaching a store with duplicate ids: three adds give
ids 1, 2, 3; deleting id 2 leaves two tasks; the next add is assigned
`id = len + 1 = 3` again. -/
def dupOps : List Op :=
  [.add ['A'] 1 none 0, .add ['B'] 1 none 0, .add ['C'] 1 none 0,
    .delete 2, .add ['D'] 1 none 0]

/-- Counterexample for C4 as stated: on the reachable store with ids
`[1, 3, 3]`, `delete_task 3` removes two tasks, not exactly one. -/
theorem delete_task_removes_two :
    ((applyOps dupOps emptyStore).tasks.map Task.task_id = [1, 3, 3]) ∧
    ((Tasks.delete_task (applyOps dupOps emptyStore) 3).tasks.map Task.task_id
      = [1]) := by decide

/-- C5: the id-uniqueness invariant fails on the code (a code bug: the class
docstring calls `task_id` a "Unique identifier"): after add, add, add,
delete 2, add — all from the empty store — the ids are `[1, 3, 3]`, because
the new id is computed as `len(tasks) + 1 = 3` while a task with id 3 is
still present. -/
theorem ids_not_unique :
    ((applyOps dupOps emptyStore).tasks.map Task.task_id = [1, 3, 3]) ∧
    ¬ ((applyOps dupOps emptyStore).tasks.map Task.task_id).Nodup := by decide

/-! Add with a malformed due date (C7). -/

/-- C7 (amended): `add_task` with a nonempty due-date string that does not
parse fails with a parse error that propagates, and the failed invocation is
atomic — the store and the backing file are unchanged.  (An empty due-date
string, although not of the form MM/DD/YYYY, is falsy in Python and is
treated as "no due date" instead; see the counterexample.) -/
theorem add_task_malformed_due (s : Tasks) (name : List Char) (priority : Int)
    (due : List Char) (now : Nat) (h1 : due ≠ []) (h2 : strptimeMDY due = none) :
    Tasks.add_task s name priority (some due) now = .error .parseError ∧
    applyOp (.add name priority (some due) now) s = s := by
  have hne : due.isEmpty = false := by
    cases due with
    | nil => exact absurd rfl h1
    | cons c cs => rfl
  have hinit : Task.init (s.tasks.length + 1) name priority (some due) now
      = .error .parseError := by
    simp [Task.init, hne, h2]
  exact ⟨by simp [Tasks.add_task, hinit], by simp [applyOp, Tasks.add_task, hinit]⟩

/-- Witness for C7 (amended): month 13 does not parse, so the add fails. -/
theorem add_task_malformed_due_witness :
    (['1', '3', '/', '0', '1', '/', '2', '0', '2', '5'] ≠ ([] : List Char) ∧
      strptimeMDY ['1', '3', '/', '0', '1', '/', '2', '0', '2', '5'] = none) ∧
    Tasks.add_task emptyStore ['x'] 1
        (some ['1', '3', '/', '0', '1', '/', '2', '0', '2', '5']) 0
      = .error .parseError :=
  ⟨⟨by decide, by decide⟩,
    (add_task_malformed_due emptyStore ['x'] 1
      ['1', '3', '/', '0', '1', '/', '2', '0', '2', '5'] 0
      (by decide) (by decide)).1⟩

/-- Counterexample for C7 as stated: the empty string is not of the form
MM/DD/YYYY (it does not parse), yet `add_task` with it succeeds — Python's
`strptime(due_date) if due_date else None` treats the falsy empty string as
"no due date" — appending an open task with no due date and persisting. -/
theorem add_task_empty_due_ok :
    strptimeMDY [] = none ∧
    Tasks.add_task emptyStore ['m'] 1 (some []) 0
      = .ok (1, ⟨[⟨1, ['m'], 1, 0, none, none⟩],
          some (encodeTasks [⟨1, ['m'], 1, 0, none, none⟩])⟩) :=
  ⟨rfl, rfl⟩

/-! Field immutability across operations (C6). -/

theorem Task.init_ok_fields (i : Nat) (nm : List Char) (p : Int)
    (due : Option (List Char)) (now : Nat) (t : Task)
    (h : Task.init i nm p due now = .ok t) : t.completed = none := by
  cases due with
  | none =>
    simp only [Task.init, Except.ok.injEq] at h
    exact h ▸ rfl
  | some str =>
    by_cases he : str.isEmpty <;> simp only [Task.init, he, if_true, if_false,
      Bool.false_eq_true, ite_false, ite_true, Except.ok.injEq] at h
    · exact h ▸ rfl
    · cases hp : strptimeMDY str with
      | none => rw [hp] at h; simp at h
      | some dt =>
        rw [hp] at h
        simp only [Except.ok.injEq] at h
        exact h ▸ rfl

theorem add_task_ok (s : Tasks) (nm : List Char) (p : Int)
    (due : Option (List Char)) (now : Nat) (tid : Nat) (s' : Tasks)
    (h : Tasks.add_task s nm p due now = .ok (tid, s')) :
    ∃ t, Task.init (s.tasks.length + 1) nm p due now = .ok t ∧
      s'.tasks = s.tasks ++ [t] ∧
      s'.file = some (encodeTasks (s.tasks ++ [t])) := by
  unfold Tasks.add_task at h
  cases hinit : Task.init (s.tasks.length + 1) nm p due now with
  | error e => rw [hinit] at h; simp at h
  | ok t =>
    rw [hinit] at h
    simp only [Except.ok.injEq, Prod.mk.injEq] at h
    exact ⟨t, rfl, by rw [← h.2]; rfl, by rw [← h.2]; rfl⟩

theorem markFirst_mem (id now : Nat) (l l' : List Task)
    (h : markFirst id now l = some l') (t' : Task) (ht : t' ∈ l') :
    t' ∈ l ∨ ∃ t ∈ l, t.task_id = id ∧ t' = Task.mark_complete t now := by
  obtain ⟨l1, t, l2, e1, e2, e3, e4⟩ := markFirst_spec id now l l' h
  subst e1; subst e4
  rcases List.mem_append.mp ht with h1 | h2
  · exact Or.inl (List.mem_append_left _ h1)
  · rcases List.mem_cons.mp h2 with rfl | h3
    · exact Or.inr ⟨t, List.mem_append_right _ (List.mem_cons_self t l2), e3, rfl⟩
    · exact Or.inl (List.mem_append_right _ (List.mem_cons_of_mem t h3))

/-- C6 (amended): under every single store operation, each task present
afterwards either descends from a stored task with the same id, created,
name, priority and due date, whose completed timestamp is never cleared
(once set it stays set) and can only change through a `done` invocation
naming that task's id (which overwrites it with the new clock), or is the
task newly appended by an `add`, which starts with no completed timestamp. -/
theorem task_fields_immutable (op : Op) (s : Tasks) (t' : Task)
    (h : t' ∈ (applyOp op s).tasks) :
    (∃ t ∈ s.tasks, t'.task_id = t.task_id ∧ t'.created = t.created ∧
        t'.name = t.name ∧ t'.priority = t.priority ∧ t'.due_date = t.due_date ∧
        (t.completed.isSome = true → t'.completed.isSome = true) ∧
        (t'.completed ≠ t.completed →
          ∃ now, op = Op.done t.task_id now ∧ t'.completed = some now))
    ∨ (∃ name priority due now, op = Op.add name priority due now ∧
        t'.completed = none) := by
  cases op with
  | add nm p due now =>
    rw [applyOp] at h
    cases hadd : Tasks.add_task s nm p due now with
    | error e =>
      rw [hadd] at h
      exact Or.inl ⟨t', h, rfl, rfl, rfl, rfl, rfl, fun hc => hc,
        fun hne => absurd rfl hne⟩
    | ok pr =>
      obtain ⟨tid, s'⟩ := pr
      rw [hadd] at h
      obtain ⟨t, hinit, htasks, _⟩ := add_task_ok s nm p due now tid s' hadd
      rw [htasks] at h
      rcases List.mem_append.mp h with hold | hnew
      · exact Or.inl ⟨t', hold, rfl, rfl, rfl, rfl, rfl, fun hc => hc,
          fun hne => absurd rfl hne⟩
      · have : t' = t := List.mem_singleton.mp hnew
        exact Or.inr ⟨nm, p, due, now, rfl,
          this ▸ Task.init_ok_fields _ nm p due now t hinit⟩
  | delete id =>
    rw [applyOp] at h
    have := (List.mem_filter.mp h).1
    exact Or.inl ⟨t', this, rfl, rfl, rfl, rfl, rfl, fun hc => hc,
      fun hne => absurd rfl hne⟩
  | done id now =>
    rw [applyOp] at h
    unfold Tasks.mark_complete at h
    cases hm : markFirst id now s.tasks with
    | none =>
      rw [hm] at h
      exact Or.inl ⟨t', h, rfl, rfl, rfl, rfl, rfl, fun hc => hc,
        fun hne => absurd rfl hne⟩
    | some ts =>
      rw [hm] at h
      rcases markFirst_mem id now s.tasks ts hm t' h with hold | ⟨t, htm, hid, rfl⟩
      · exact Or.inl ⟨t', hold, rfl, rfl, rfl, rfl, rfl, fun hc => hc,
          fun hne => absurd rfl hne⟩
      · exact Or.inl ⟨t, htm, rfl, rfl, rfl, rfl, rfl, fun _ => rfl,
          fun _ => ⟨now, by rw [hid], rfl⟩⟩
  | list q =>
    exact Or.inl ⟨t', h, rfl, rfl, rfl, rfl, rfl, fun hc => hc,
      fun hne => absurd rfl hne⟩
  | report =>
    rw [applyOp] at h
    have := List.mem_mergeSort.mp h
    exact Or.inl ⟨t', this, rfl, rfl, rfl, rfl, rfl, fun hc => hc,
      fun hne => absurd rfl hne⟩

/-- Witness for C6 (amended) at a concrete operation and store. -/
theorem task_fields_immutable_witness :
    (⟨1, ['A'], 1, 0, none, some 5⟩ : Task)
        ∈ (applyOp (Op.list none) ⟨[⟨1, ['A'], 1, 0, none, some 5⟩], none⟩).tasks ∧
    ∃ t ∈ (⟨[⟨1, ['A'], 1, 0, none, some 5⟩], none⟩ : Tasks).tasks,
      (⟨1, ['A'], 1, 0, none, some 5⟩ : Task).task_id = t.task_id := by
  have h := task_fields_immutable (Op.list none)
    ⟨[⟨1, ['A'], 1, 0, none, some 5⟩], none⟩
    ⟨1, ['A'], 1, 0, none, some 5⟩ (by decide)
  rcases h with ⟨t, htm, h1, _⟩ | ⟨_, _, _, _, hop, _⟩
  · exact ⟨by decide, t, htm, h1⟩
  · simp at hop

/-- Counterexample for C6 as stated: a second `done` on the same task
overwrites the already-set completed timestamp (5 becomes 9), so `completed`
is not immutable once set. -/
theorem completed_overwritten :
    ((applyOps [.add ['A'] 1 none 0, .done 1 5] emptyStore).tasks.map
        Task.completed = [some 5]) ∧
    ((applyOps [.add ['A'] 1 none 0, .done 1 5, .done 1 9] emptyStore).tasks.map
        Task.completed = [some 9]) := by decide

/-! Sort order of `list_tasks` and `generate_report` (C1). -/

/-- Propositional form of the sort-key comparison: due date ascending with
"no due date" as the maximum, then priority descending. -/
def keyLeP (t u : Task) : Prop :=
  dueKey t < dueKey u ∨ (dueKey t = dueKey u ∧ u.priority ≤ t.priority)

/-- Relation "a task with no due date is never followed by one with a due
date". -/
def noneLast (t u : Task) : Prop :=
  t.due_date = none → u.due_date = none

/-- A task's due date, when present, is below `datetime.max`.  Every due date
the program can construct satisfies this: `strptimeMDY` only produces values
below `dtMax` (see `strptime_lt_dtMax`). -/
def dueOk (t : Task) : Bool :=
  t.due_date.all (fun d => decide (d < dtMax))

theorem keyLe_eq_true_iff (t u : Task) : keyLe t u = true ↔ keyLeP t u := by
  simp [keyLe, keyLeP]

theorem keyLe_trans (a b c : Task) (hab : keyLe a b = true)
    (hbc : keyLe b c = true) : keyLe a c = true := by
  rw [keyLe_eq_true_iff] at hab hbc ⊢
  unfold keyLeP at hab hbc ⊢
  omega

theorem keyLe_total (a b : Task) : (keyLe a b || keyLe b a) = true := by
  rw [Bool.or_eq_true, keyLe_eq_true_iff, keyLe_eq_true_iff]
  unfold keyLeP
  omega

theorem filtered_subset (s : Tasks) (q : Option (List (List Char))) (t : Task)
    (h : t ∈ Tasks.filtered s q) : t ∈ s.tasks := by
  unfold Tasks.filtered at h
  cases q with
  | none => exact (List.mem_filter.mp h).1
  | some terms =>
    cases terms with
    | nil => exact (List.mem_filter.mp h).1
    | cons a as => exact (List.mem_filter.mp (List.mem_filter.mp h).1).1

theorem pairwise_keyLeP_mergeSort (bl : List Task) :
    (bl.mergeSort keyLe).Pairwise keyLeP :=
  (List.sorted_mergeSort keyLe_trans keyLe_total bl).imp
    (fun h => (keyLe_eq_true_iff _ _).mp h)

theorem pairwise_noneLast_mergeSort (bl : List Task)
    (hdue : ∀ t ∈ bl, dueOk t = true) :
    (bl.mergeSort keyLe).Pairwise noneLast := by
  refine (pairwise_keyLeP_mergeSort bl).imp_of_mem ?_
  intro a b _ hb hab hnone
  have hb' : b ∈ bl := List.mem_mergeSort.mp hb
  have hda : dueKey a = dtMax := by simp [dueKey, hnone]
  cases hdb : b.due_date with
  | none => rfl
  | some d =>
    have hlt : d < dtMax := by
      have hd := hdue b hb'
      simp [dueOk, hdb] at hd
      exact hd
    have hdb' : dueKey b = d := by simp [dueKey, hdb]
    unfold keyLeP at hab
    rw [hda, hdb'] at hab
    exfalso
    omega

theorem stable_pair_mergeSort (bl : List Task) (a b : Task)
    (h1 : dueKey a = dueKey b) (h2 : a.priority = b.priority)
    (hs : List.Sublist [a, b] bl) :
    List.Sublist [a, b] (bl.mergeSort keyLe) := by
  have hab : keyLe a b = true := by
    rw [keyLe_eq_true_iff]; unfold keyLeP; omega
  exact List.pair_sublist_mergeSort keyLe_trans keyLe_total hab hs

/-- C1: whenever every stored due date is below `datetime.max` (as every
parsed due date is), the sequences returned by `list_tasks` (for any query)
and by `generate_report` are sorted by due date ascending with no-due-date
tasks after every dated task, ties broken by priority descending, and tasks
with equal due key and equal priority keep their relative input order (the
sort is stable). -/
theorem list_and_report_sorted (s : Tasks) (q : Option (List (List Char)))
    (hdue : ∀ t ∈ s.tasks, dueOk t = true) :
    ((Tasks.list_tasks s q).Pairwise keyLeP ∧
      (Tasks.list_tasks s q).Pairwise noneLast ∧
      (∀ a b : Task, dueKey a = dueKey b → a.priority = b.priority →
        List.Sublist [a, b] (Tasks.filtered s q) →
        List.Sublist [a, b] (Tasks.list_tasks s q))) ∧
    ((Tasks.generate_report s).1.Pairwise keyLeP ∧
      (Tasks.generate_report s).1.Pairwise noneLast ∧
      (∀ a b : Task, dueKey a = dueKey b → a.priority = b.priority →
        List.Sublist [a, b] s.tasks →
        List.Sublist [a, b] (Tasks.generate_report s).1)) := by
  have hdue' : ∀ t ∈ Tasks.filtered s q, dueOk t = true :=
    fun t ht => hdue t (filtered_subset s q t ht)
  exact ⟨⟨pairwise_keyLeP_mergeSort _, pairwise_noneLast_mergeSort _ hdue',
      fun a b h1 h2 hs => stable_pair_mergeSort _ a b h1 h2 hs⟩,
    ⟨pairwise_keyLeP_mergeSort _, pairwise_noneLast_mergeSort _ hdue,
      fun a b h1 h2 hs => stable_pair_mergeSort _ a b h1 h2 hs⟩⟩

/-- Witness for C1 at a concrete store (two dated tasks of priorities 1 and
3 and one task with no due date). -/
theorem list_and_report_sorted_witness :
    (∀ t ∈ (⟨[⟨1, ['A'], 1, 0, some 100, none⟩, ⟨2, ['B'], 3, 0, some 100, none⟩,
        ⟨3, ['C'], 3, 0, none, none⟩], none⟩ : Tasks).tasks, dueOk t = true) ∧
    (Tasks.list_tasks ⟨[⟨1, ['A'], 1, 0, some 100, none⟩,
        ⟨2, ['B'], 3, 0, some 100, none⟩, ⟨3, ['C'], 3, 0, none, none⟩], none⟩
        none).Pairwise noneLast :=
  ⟨by decide,
    (list_and_report_sorted ⟨[⟨1, ['A'], 1, 0, some 100, none⟩,
        ⟨2, ['B'], 3, 0, some 100, none⟩, ⟨3, ['C'], 3, 0, none, none⟩], none⟩
      none (by decide)).1.2.1⟩

/-! Supporting fact: every due date the parser can produce is below
`datetime.max`, so the hypothesis of `list_and_report_sorted` holds for
every store the program builds. -/

theorem daysInMonth_le (y m : Nat) : daysInMonth y m ≤ 31 := by
  unfold daysInMonth
  split
  · split <;> omega
  · split <;> omega

theorem natOfDigits_foldl_lt (s : List Char) (a : Nat)
    (h : s.all isDigitB = true) :
    s.foldl (fun a c => a * 10 + (c.toNat - 48)) a < (a + 1) * 10 ^ s.length := by
  induction s generalizing a with
  | nil => simp
  | cons c cs ih =>
    simp only [List.all_cons, Bool.and_eq_true] at h
    have hc : c.toNat - 48 ≤ 9 := by
      have hd := h.1
      simp [isDigitB] at hd
      omega
    have step := ih (a * 10 + (c.toNat - 48)) h.2
    have hmul : (a * 10 + (c.toNat - 48) + 1) * 10 ^ cs.length
        ≤ (a + 1) * 10 ^ (cs.length + 1) := by
      have hle : a * 10 + (c.toNat - 48) + 1 ≤ (a + 1) * 10 := by omega
      calc (a * 10 + (c.toNat - 48) + 1) * 10 ^ cs.length
          ≤ ((a + 1) * 10) * 10 ^ cs.length := Nat.mul_le_mul_right _ hle
        _ = (a + 1) * 10 ^ (cs.length + 1) := by ring
    simp only [List.foldl_cons, List.length_cons]
    exact lt_of_lt_of_le step hmul

theorem natOfDigits_lt (s : List Char) (h : s.all isDigitB = true) :
    natOfDigits s < 10 ^ s.length := by
  have := natOfDigits_foldl_lt s 0 h
  simpa [natOfDigits] using this

theorem strptime_lt_dtMax (s : List Char) (dt : Nat)
    (h : strptimeMDY s = some dt) : dt < dtMax := by
  unfold strptimeMDY at h
  split at h
  · split at h
    · split at h
      · rename_i ms ds ys heq hdig hval
        simp only [Option.some.injEq] at h
        simp only [Bool.and_eq_true, beq_iff_eq, Bool.or_eq_true,
          decide_eq_true_eq] at hdig hval
        obtain ⟨⟨⟨⟨⟨hlm, ham⟩, hld⟩, had⟩, hly⟩, hay⟩ := hdig
        obtain ⟨⟨⟨⟨h1m, h12⟩, h1y⟩, h1d⟩, hdd⟩ := hval
        have hy : natOfDigits ys < 10 ^ ys.length := natOfDigits_lt ys hay
        rw [hly] at hy
        norm_num at hy
        have hdm : daysInMonth (natOfDigits ys) (natOfDigits ms) ≤ 31 :=
          daysInMonth_le _ _
        have hd : natOfDigits ds ≤ 31 := le_trans hdd hdm
        rw [← h]
        unfold dtMax dtOfYMD microsPerDay
        omega
      · simp at h
    · simp at h
  · simp at h

end FinalProject
